import Mathlib

/-!
Verification development for the snarkOS peer-to-peer networking server
(`src/network/src/server/server.rs` and `src/network/src/server/message_handler.rs`).

The Rust code is shallowly embedded as pure Lean functions.  Stateful
handlers become functions from an explicit `NodeState` to a new state
together with a trace of externally visible `Effect`s (channel writes,
calls into the consensus engine, handshake attempts, stream shutdowns).
External collaborators that are out of scope for the networking core
(ledger storage, consensus, the handshake registry internals, block
deserialization) are supplied as oracle parameters, mirroring the fact
that the Rust code only consumes their interfaces.

Components of the repository whose implementation files are not part of
the specified core (the `PeerBook`, the `SyncHandler`, `propagate_block`)
are modelled from the specification's contracts; each such definition
carries a doc comment starting with `Modelled from the spec:`.
-/

namespace SnarkOS

/-- An IP + port socket address (`SocketAddr`); the identity of a remote node. -/
structure Addr where
  ip : Nat
  port : Nat
deriving DecidableEq, Repr

/-- Timestamps (`DateTime<Utc>`), modelled as abstract ticks. -/
abbrev Time := Nat

/-- Block header hashes (`BlockHeaderHash`), modelled abstractly. -/
abbrev Hash := Nat

/-- Raw serialized block bytes (`message.data`), modelled abstractly. -/
abbrev BlockData := Nat

/-- The fields of a deserialized `BlockStruct` that the networking core consumes:
only `block.header.get_hash()`. -/
structure BlockStruct where
  headerHash : Hash
deriving DecidableEq, Repr

/-- A `Version` message payload (`message_types::Version`). -/
structure Version where
  version : Nat
  height : Nat
  nonce : Nat
  timestamp : Int
  address_receiver : Addr
  address_sender : Addr
deriving DecidableEq, Repr

/-- A per-peer channel handle; the networking handlers only consume its
`address` field (`channel.address`). -/
structure Channel where
  address : Addr
deriving DecidableEq, Repr

/-- Outbound messages written to a peer channel by the handlers we model. -/
inductive OutMsg
  | sync (hashes : List Hash)
  | getSync (locator : List Hash)
  | getBlock (h : Hash)
  | block (data : BlockData)
deriving DecidableEq, Repr

/-- Externally visible effects of a handler step. -/
inductive Effect
  | write (dest : Addr) (msg : OutMsg)
  | consensusReceiveBlock (data : BlockData)
  | handshakeRequest (peer : Addr)
  | shutdownWrite
  | runHandshake (peer : Addr)
  | spawnReader (peer : Addr)
  | dial (peer : Addr)
deriving DecidableEq, Repr

/-!  ### Peer book

The `PeerBook` implementation file is not part of the specified core; it is
modelled from the spec (§3 "PeerBook", §4.3 "Peer book").  Each of the three
sets is an association list `PeerAddress → timestamp`; insertion removes any
previous binding for the key, so keys stay unique.  -/

/-- An address-keyed map of timestamps, as an association list. -/
abbrev PeerMap := List (Addr × Time)

/-- Look up the timestamp bound to an address. -/
def pmLookup : PeerMap → Addr → Option Time
  | [], _ => none
  | p :: m, a => if p.1 = a then some p.2 else pmLookup m a

/-- Remove every binding for an address. -/
def pmErase : PeerMap → Addr → PeerMap
  | [], _ => []
  | p :: m, a => if p.1 = a then pmErase m a else p :: pmErase m a

/-- Bind an address to a timestamp, replacing any previous binding. -/
def pmInsert (m : PeerMap) (a : Addr) (t : Time) : PeerMap :=
  (a, t) :: pmErase m a

/-- Modelled from the spec: the `PeerBook` (§3), three disjoint mappings
`PeerAddress → timestamp`. -/
structure PeerBook where
  connected : PeerMap
  gossiped : PeerMap
  disconnected : PeerMap
deriving DecidableEq, Repr

namespace PeerBook

/-- Modelled from the spec: `connected_contains`. -/
def connected_contains (pb : PeerBook) (a : Addr) : Bool :=
  (pmLookup pb.connected a).isSome

/-- Modelled from the spec: `connected_total`, the number of connected peers. -/
def connected_total (pb : PeerBook) : Nat :=
  pb.connected.length

/-- Modelled from the spec: `update_connected(addr, ts)` binds `addr` in the
connected set and "MUST remove `addr` from gossiped and disconnected sets
first" (§4.3). -/
def update_connected (pb : PeerBook) (a : Addr) (t : Time) : PeerBook :=
  { connected := pmInsert pb.connected a t
    gossiped := pmErase pb.gossiped a
    disconnected := pmErase pb.disconnected a }

/-- Modelled from the spec: `update_gossiped(addr, ts)` "MUST be a no-op if
already connected" (§4.3); otherwise it binds `addr` in the gossiped set,
removing it from the disconnected set to keep the sets disjoint (§3). -/
def update_gossiped (pb : PeerBook) (a : Addr) (t : Time) : PeerBook :=
  if pb.connected_contains a then pb
  else
    { pb with
      gossiped := pmInsert pb.gossiped a t
      disconnected := pmErase pb.disconnected a }

/-- Modelled from the spec: `disconnect_peer(addr)` moves a connected peer to
the disconnected set (§4.3). -/
def disconnect_peer (pb : PeerBook) (a : Addr) : PeerBook :=
  match pmLookup pb.connected a with
  | some t =>
    { pb with
      connected := pmErase pb.connected a
      disconnected := pmInsert pb.disconnected a t }
  | none => pb

/-- Modelled from the spec: `forget_peer(addr)` removes the address from all
three sets (§4.3). -/
def forget_peer (pb : PeerBook) (a : Addr) : PeerBook :=
  { connected := pmErase pb.connected a
    gossiped := pmErase pb.gossiped a
    disconnected := pmErase pb.disconnected a }

/-- Modelled from the spec: `get_connected()` returns the connected mapping. -/
def get_connected (pb : PeerBook) : PeerMap :=
  pb.connected

end PeerBook

/-!  ### Sync handler

The `SyncHandler` implementation file is not part of the specified core; it is
modelled from the spec (§3 "SyncState"/"SyncHandler", §4.6).  -/

/-- The sync state machine's states (§4.6). -/
inductive SyncState
  | Idle
  | Syncing
deriving DecidableEq, Repr

/-- Modelled from the spec: the `SyncHandler` record (§3); the cursor is
modelled by consuming `pending_hashes` from the front. -/
structure SyncHandler where
  sync_state : SyncState
  sync_node : Addr
  pending_hashes : List Hash
deriving DecidableEq, Repr

namespace SyncHandler

/-- Modelled from the spec: `is_syncing()` holds exactly in state `Syncing` (§4.6). -/
def is_syncing (s : SyncHandler) : Bool :=
  s.sync_state = SyncState.Syncing

end SyncHandler

/-!  ### Storage oracle

The ledger storage is an external collaborator (spec §1, §6 "Storage API
consumed"); we model exactly the functions the networking core calls. -/

/-- The storage interface consumed by the networking core (spec §6). -/
structure Storage where
  getLatestSharedHash : List Hash → Except Unit Hash
  getLatestBlockHeight : Nat
  getBlockNumber : Hash → Except Unit Nat
  getBlockHash : Nat → Except Unit Hash
  blockHashExists : Hash → Bool
  getBlockLocatorHashes : Except Unit (List Hash)

namespace SyncHandler

/-- Modelled from the spec: `clear_pending(storage)` "discards pending hashes
whose blocks are now present; if empty, state ← Idle" (§4.6). -/
def clear_pending (s : SyncHandler) (storage : Storage) : SyncHandler :=
  let pending := s.pending_hashes.filter (fun h => ¬ storage.blockHashExists h)
  { s with
    pending_hashes := pending
    sync_state := if pending.isEmpty then SyncState.Idle else s.sync_state }

/-- Modelled from the spec: `increment(channel, storage)` "sends
`GetBlock{next_pending_hash}` to the sync node and advances the cursor; if all
pending hashes consumed, state ← Idle" (§4.6). -/
def increment (s : SyncHandler) (channelAddr : Addr) (_storage : Storage) :
    SyncHandler × List Effect :=
  match s.pending_hashes with
  | [] => ({ s with sync_state := SyncState.Idle }, [])
  | h :: rest =>
    ({ s with
        pending_hashes := rest
        sync_state := if rest.isEmpty then SyncState.Idle else s.sync_state },
      [Effect.write channelAddr (OutMsg.getBlock h)])

end SyncHandler

/-!  ### `receive_get_sync` (`message_handler.rs`, lines 272-302) -/

/-- The loop `for block_num in lo..=lo+n-1 { block_hashes.push(storage.get_block_hash(block_num)?) }`:
collects `n` consecutive block hashes starting at height `lo`, aborting on the
first storage error. -/
def hashRange (storage : Storage) (lo : Nat) : Nat → Except Unit (List Hash)
  | 0 => Except.ok []
  | n + 1 => do
    let h ← storage.getBlockHash lo
    let rest ← hashRange storage (lo + 1) n
    pure (h :: rest)

/-- Embedding of `Server::receive_get_sync`: computes the latest shared hash
from the locator and replies with a `Sync` message; the returned list is the
sequence of messages written to the requesting channel. -/
def receive_get_sync (storage : Storage) (block_locator_hashes : List Hash) :
    Except Unit (List OutMsg) := do
  let latest_shared_hash ← storage.getLatestSharedHash block_locator_hashes
  let current_height := storage.getLatestBlockHeight
  match storage.getBlockNumber latest_shared_hash with
  | Except.ok height =>
    if height < current_height then
      let max_height := if height + 4000 < current_height then height + 4000 else current_height
      let block_hashes ← hashRange storage (height + 1) (max_height - height)
      pure [OutMsg.sync block_hashes]
    else
      pure [OutMsg.sync []]
  | Except.error _ =>
    pure [OutMsg.sync []]

/-!  ### Node state -/

/-- The shared mutable state of the server that the modelled handlers touch:
the `local_address` cell, the peer book, the sync handler, and the connection
table (tracked by its key set of peer addresses). -/
structure NodeState where
  localAddress : Addr
  peer_book : PeerBook
  sync : SyncHandler
  connections : List Addr
deriving DecidableEq, Repr

/-- Modelled from the spec: `propagate_block(context, data, sender)` is not
under `src/`; per §4.10 step 5 and §8 scenario 6 it fans the encoded block out
to all connected peers except the sender. -/
def propagate_block (connections : List Addr) (data : BlockData) (sender : Addr) :
    List Effect :=
  (connections.filter (fun a => a ≠ sender)).map (fun a => Effect.write a (OutMsg.block data))

/-- Modelled from the spec: `Connections::store_channel` stores the write half
under the peer's address (§3 "Connections"); we track only the key set. -/
def store_channel (connections : List Addr) (a : Addr) : List Addr :=
  if a ∈ connections then connections else a :: connections

/-!  ### `receive_block_message` (`message_handler.rs`, lines 101-141)

`Block::deserialize`, `consensus.receive_block` and the storage mutation it
performs are external collaborators, passed as the oracles `deserializeBlock`,
`inserted` (whether `receive_block` returned `Ok`) and `storageAfter` (the
storage as seen after the `receive_block` call). -/

/-- Embedding of `Server::receive_block_message`: returns the new node state
and the trace of effects (consensus call, propagation or follow-up sync
request). -/
def receive_block_message (storage : Storage)
    (deserializeBlock : BlockData → Except Unit BlockStruct)
    (inserted : Bool) (storageAfter : Storage)
    (st : NodeState) (data : BlockData) (channel : Channel) (propagate : Bool) :
    Except Unit (NodeState × List Effect) := do
  let block ← deserializeBlock data
  if !storage.blockHashExists block.headerHash then
    let effs0 := [Effect.consensusReceiveBlock data]
    let sync1 := st.sync.clear_pending storageAfter
    if inserted && propagate then
      let effs := propagate_block st.connections data channel.address
      pure ({ st with sync := sync1 }, effs0 ++ effs)
    else if !propagate && decide (sync1.sync_state ≠ SyncState.Idle) then
      if sync1.sync_node ∈ st.connections then
        let incremented := sync1.increment sync1.sync_node storageAfter
        pure ({ st with sync := incremented.1 }, effs0 ++ incremented.2)
      else
        pure ({ st with sync := sync1 }, effs0)
    else
      pure ({ st with sync := sync1 }, effs0)
  else
    pure (st, [])

/-!  ### `receive_peers` (`message_handler.rs`, lines 213-228) -/

/-- One iteration of the `receive_peers` merge loop over a learned
`(address, timestamp)` pair. -/
def peersStep (localAddress : Addr) (pb : PeerBook) (p : Addr × Time) : PeerBook :=
  if p.1 = localAddress then pb
  else if pb.connected_contains p.1 then pb.update_connected p.1 p.2
  else pb.update_gossiped p.1 p.2

/-- Embedding of `Server::receive_peers`: merge the learned addresses, then
mark the sender connected with the current time. -/
def receive_peers (localAddress : Addr) (pb : PeerBook)
    (addresses : List (Addr × Time)) (senderAddress : Addr) (now : Time) : PeerBook :=
  (addresses.foldl (peersStep localAddress) pb).update_connected senderAddress now

/-!  ### `receive_version` (`message_handler.rs`, lines 375-405)

`handshakes.receive_request` is an external collaborator whose outcome is the
oracle `handshakeRes`; `sync_handler_lock.try_lock()` succeeding is the oracle
`tryLockOk`. -/

/-- Embedding of `Server::receive_version`: returns the possibly updated sync
handler, the effect trace, and the channel handle given back to the caller. -/
def receive_version (st : NodeState) (max_peers : Nat) (storage : Storage)
    (handshakeRes : Except Unit Unit) (tryLockOk : Bool)
    (message : Version) (channel : Channel) :
    Except Unit (SyncHandler × List Effect × Channel) :=
  let peer_address : Addr := ⟨channel.address.ip, message.address_sender.port⟩
  if (st.peer_book.connected_total < max_peers ∨ st.peer_book.connected_contains peer_address = true)
      ∧ st.localAddress ≠ peer_address then
    match handshakeRes with
    | Except.error e => Except.error e
    | Except.ok _ =>
      let effs0 := [Effect.handshakeRequest peer_address]
      if message.height > storage.getLatestBlockHeight then
        if tryLockOk then
          if !st.sync.is_syncing then
            let sync1 := { st.sync with sync_node := peer_address }
            match storage.getBlockLocatorHashes with
            | Except.ok locator =>
              Except.ok (sync1, effs0 ++ [Effect.write channel.address (OutMsg.getSync locator)], channel)
            | Except.error _ => Except.ok (sync1, effs0, channel)
          else Except.ok (st.sync, effs0, channel)
        else Except.ok (st.sync, effs0, channel)
      else Except.ok (st.sync, effs0, channel)
  else
    Except.ok (st.sync, [], channel)

/-!  ### Central message handler dispatch (`message_handler.rs`, lines 45-98) -/

/-- Inbound messages as dispatched by `message_handler`; `other` stands for
the remaining message names (`verack`, `ping`, `pong`, `getpeers`, `getblock`,
`getmemorypool`, `memorypool`, `transaction`, unknown), none of which
reassigns the acknowledged channel handle in the source. -/
inductive InMsg
  | block (data : BlockData)
  | syncBlock (data : BlockData)
  | getSync (locator : List Hash)
  | peers (addresses : List (Addr × Time))
  | version (v : Version)
  | disconnect
  | other
deriving DecidableEq, Repr

/-- Embedding of one dispatch step of `Server::message_handler`: handles one
received message and returns the state, the effects, and the channel handle
sent back through the oneshot acknowledgement. -/
def handler_step (storage : Storage)
    (deserializeBlock : BlockData → Except Unit BlockStruct)
    (inserted : Bool) (storageAfter : Storage)
    (max_peers : Nat) (handshakeRes : Except Unit Unit) (tryLockOk : Bool) (now : Time)
    (st : NodeState) (msg : InMsg) (channel : Channel) :
    Except Unit (NodeState × List Effect × Channel) :=
  match msg with
  | InMsg.block data =>
    (receive_block_message storage deserializeBlock inserted storageAfter st data channel true).map
      (fun r => (r.1, r.2, channel))
  | InMsg.syncBlock data =>
    (receive_block_message storage deserializeBlock inserted storageAfter st data channel false).map
      (fun r => (r.1, r.2, channel))
  | InMsg.getSync locator =>
    (receive_get_sync storage locator).map
      (fun msgs => (st, msgs.map (Effect.write channel.address), channel))
  | InMsg.peers addresses =>
    Except.ok
      ({ st with peer_book := receive_peers st.localAddress st.peer_book addresses channel.address now },
        [], channel)
  | InMsg.version v =>
    (receive_version st max_peers storage handshakeRes tryLockOk v channel).map
      (fun r => ({ st with sync := r.1 }, r.2.1, r.2.2))
  | InMsg.disconnect =>
    Except.ok ({ st with peer_book := st.peer_book.disconnect_peer channel.address }, [], channel)
  | InMsg.other =>
    Except.ok (st, [], channel)

/-!  ### Connection acceptor (`server.rs`, lines 252-328)

`handshakes.receive_any` is an external collaborator; its outcome is the
oracle `handshakeRes`, carrying the post-handshake channel address, the
`receiver_address` the peer observed for us, and the peer's `Version` message
when the handshake was inbound-initiated. -/

/-- The result of a successful `receive_any` handshake in the acceptor loop. -/
structure HandshakeOutcome where
  channelAddress : Addr
  receiverAddress : Addr
  versionMessage : Option Version
deriving DecidableEq, Repr

/-- Embedding of one iteration of the acceptor loop in `Server::listen`, after
a TCP connection from `peerAddress` was accepted. -/
def listen_accept (max_peers : Nat) (storage : Storage) (st : NodeState)
    (peerAddress : Addr) (handshakeRes : Except Unit HandshakeOutcome) (tryLockOk : Bool) :
    NodeState × List Effect :=
  if st.peer_book.connected_total ≥ max_peers then
    (st, [Effect.shutdownWrite])
  else
    match handshakeRes with
    | Except.error _ => (st, [Effect.runHandshake peerAddress])
    | Except.ok h =>
      let st1 :=
        if st.localAddress ≠ h.receiverAddress then
          { st with
            localAddress := h.receiverAddress
            peer_book := st.peer_book.forget_peer h.receiverAddress }
        else st
      let st2 := { st1 with connections := store_channel st1.connections h.channelAddress }
      let stepped :=
        match h.versionMessage with
        | some v =>
          if v.height > storage.getLatestBlockHeight then
            if tryLockOk then
              if !st2.sync.is_syncing then
                ({ st2.sync with sync_node := h.channelAddress },
                  match storage.getBlockLocatorHashes with
                  | Except.ok locator => [Effect.write h.channelAddress (OutMsg.getSync locator)]
                  | Except.error _ => ([] : List Effect))
              else (st2.sync, [])
            else (st2.sync, [])
          else (st2.sync, [])
        | none => (st2.sync, [])
      ({ st2 with sync := stepped.1 },
        Effect.runHandshake peerAddress :: stepped.2 ++ [Effect.spawnReader h.channelAddress])

/-!  ### `connect_bootnodes` (`server.rs`, lines 105-125) -/

/-- One iteration of the `connect_bootnodes` loop over an indexed bootnode. -/
def bootStep (localAddress : Addr) (now : Time)
    (acc : PeerBook × List Effect) (p : Nat × Addr) : PeerBook × List Effect :=
  if p.1 = 0 then
    if localAddress ≠ p.2 then (acc.1, acc.2 ++ [Effect.dial p.2]) else acc
  else
    (acc.1.update_gossiped p.2 now, acc.2)

/-- Embedding of `Server::connect_bootnodes`; the bootnode list is taken as
already parsed socket addresses. -/
def connect_bootnodes (localAddress : Addr) (pb : PeerBook)
    (bootnodes : List Addr) (now : Time) : PeerBook × List Effect :=
  bootnodes.enum.foldl (bootStep localAddress now) (pb, [])

/-!  ### Per-peer reader loop (`server.rs`, lines 146-227)

One outer iteration of the loop inside `spawn_connection_thread`.  The three
fallible awaits of an iteration (`channel.read()`, the mpsc `send`, the
oneshot `rx.await`) are inputs: a read error is `readRes = none`, a send
error is `sendOk = false`, an acknowledgement error is `ackRes = none`.
The forwarded trace records the messages delivered to the central handler. -/

/-- Embedding of `should_disconnect`: tolerate up to 10 failed communications. -/
def should_disconnect (failure_count : Nat) : Bool :=
  failure_count ≥ 10

/-- The triple of mutable locals threaded through `handle_failure`. -/
structure FailState where
  failure : Bool
  failure_count : Nat
  disconnect_from_peer : Bool
deriving DecidableEq, Repr

/-- Embedding of `handle_failure`: increments `failure_count` (a `u8`, hence
modulo 256) only on the first failure of the iteration and recomputes the
disconnect flag; later failures in the same iteration change nothing. -/
def handle_failure (s : FailState) : FailState :=
  if !s.failure then
    let fc := (s.failure_count + 1) % 256
    { failure := true, failure_count := fc, disconnect_from_peer := should_disconnect fc }
  else s

/-- The reader loop state carried across outer iterations. -/
structure ReaderLoopState where
  channel : Channel
  failure_count : Nat
  disconnect_from_peer : Bool
deriving DecidableEq, Repr

/-- The outcome of the three awaits of one outer reader iteration. -/
structure IterInput where
  readRes : Option InMsg
  sendOk : Bool
  ackRes : Option Channel
deriving DecidableEq, Repr

/-- Whether the iteration fell through to the next one or broke out of the loop. -/
inductive IterResult
  | continued (s : ReaderLoopState)
  | broke (s : ReaderLoopState)
deriving DecidableEq, Repr

/-- The loop state carried by an `IterResult`. -/
def IterResult.state : IterResult → ReaderLoopState
  | IterResult.continued s => s
  | IterResult.broke s => s

/-- The tail of a reader iteration once a message (read or synthetic) is in
hand: send it to the central handler, await the acknowledgement, and break if
the disconnect flag is set. -/
def reader_forward (channel : Channel) (f1 : FailState) (message : InMsg)
    (inp : IterInput) : IterResult × List InMsg :=
  let sent :=
    if inp.sendOk then (f1, [message]) else (handle_failure f1, ([] : List InMsg))
  let acked :=
    match inp.ackRes with
    | some peer_channel => (sent.1, peer_channel)
    | none => (handle_failure sent.1, channel)
  if acked.1.disconnect_from_peer then
    (IterResult.broke ⟨acked.2, acked.1.failure_count, acked.1.disconnect_from_peer⟩, sent.2)
  else
    (IterResult.continued ⟨acked.2, acked.1.failure_count, acked.1.disconnect_from_peer⟩, sent.2)

/-- Embedding of one outer iteration of the reader loop in
`spawn_connection_thread`: on a read error the failure is handled and, if the
disconnect flag is now set, a synthetic `disconnect` message is forwarded in
place of the read one; otherwise the loop continues directly. -/
def reader_iteration (s : ReaderLoopState) (inp : IterInput) : IterResult × List InMsg :=
  let f0 : FailState := ⟨false, s.failure_count, s.disconnect_from_peer⟩
  match inp.readRes with
  | some message => reader_forward s.channel f0 message inp
  | none =>
    let f1 := handle_failure f0
    if f1.disconnect_from_peer then
      reader_forward s.channel f1 InMsg.disconnect inp
    else
      (IterResult.continued ⟨s.channel, f1.failure_count, f1.disconnect_from_peer⟩, [])

/-!  ### Witness fixtures -/

/-- A concrete storage oracle used by witness theorems: chain height 3, the
locator hash `100` sits at height 1, block hashes are `10 * height`. -/
def c1Storage : Storage :=
  { getLatestSharedHash := fun _ => Except.ok 100
    getLatestBlockHeight := 3
    getBlockNumber := fun h => if h = 100 then Except.ok 1 else Except.error ()
    getBlockHash := fun n => Except.ok (10 * n)
    blockHashExists := fun _ => false
    getBlockLocatorHashes := Except.ok [] }

/-- Sample addresses for witness theorems. -/
def addrA : Addr := ⟨1, 10⟩

/-- Sample addresses for witness theorems. -/
def addrB : Addr := ⟨2, 20⟩

/-- Sample addresses for witness theorems. -/
def addrC : Addr := ⟨3, 30⟩

/-- An empty peer book for witness theorems. -/
def pb0 : PeerBook := ⟨[], [], []⟩

/-- An idle sync handler for witness theorems. -/
def sync0 : SyncHandler := ⟨SyncState.Idle, addrA, []⟩

/-- A sample node state for witness theorems: local address `addrA`, live
connections to `addrB` and `addrC`. -/
def st0 : NodeState := ⟨addrA, pb0, sync0, [addrB, addrC]⟩

/-- A deserialization oracle for witness theorems: the data value is the header hash. -/
def desOk : BlockData → Except Unit BlockStruct := fun d => Except.ok ⟨d⟩

/-- A storage oracle for witness theorems in which every block hash exists. -/
def storageAllPresent : Storage :=
  ⟨fun _ => Except.error (), 0, fun _ => Except.error (), fun _ => Except.error (),
    fun _ => true, Except.error ()⟩

/-- A storage oracle for witness theorems in which no block hash exists. -/
def storageNonePresent : Storage :=
  ⟨fun _ => Except.error (), 0, fun _ => Except.error (), fun _ => Except.error (),
    fun _ => false, Except.error ()⟩

/-- A sample `Version` message for witness theorems: the sender advertises
port 2000 and height 5. -/
def vMsg : Version := ⟨1, 5, 0, 0, addrA, ⟨2, 2000⟩⟩

/-- A sample channel for witness theorems whose remote port (1000) differs
from the sender-advertised port (2000). -/
def ch1000 : Channel := ⟨⟨2, 1000⟩⟩

/-- A sample successful handshake outcome for witness theorems: channel at
`addrB`, the peer observed us at `(7, 70)`, no `Version` piggybacked. -/
def hOutB : HandshakeOutcome := ⟨addrB, ⟨7, 70⟩, none⟩

/-- A second sample handshake outcome: channel at `addrC`, the peer observed
us at `(8, 80)`. -/
def hOutC : HandshakeOutcome := ⟨addrC, ⟨8, 80⟩, none⟩

/-- A fourth sample address for witness theorems. -/
def addrD : Addr := ⟨4, 40⟩

/-- The view of a peer book at a single address: its bindings (if any) in the
connected, gossiped and disconnected sets, in that order. -/
def bookAt (pb : PeerBook) (a : Addr) : Option Time × Option Time × Option Time :=
  (pmLookup pb.connected a, pmLookup pb.gossiped a, pmLookup pb.disconnected a)

/-!  ## Theorems -/

/-- Reduction of monadic bind on a successful `Except` computation. -/
theorem except_bind_ok {α β : Type} (a : α) (f : α → Except Unit β) :
    (Except.ok a >>= f : Except Unit β) = f a := rfl

/-- Reduction of `pure` in the `Except` monad. -/
theorem except_pure_eq {β : Type} (b : β) : (pure b : Except Unit β) = Except.ok b := rfl

/-- If every hash in the requested window is present in storage, collecting the
window succeeds and yields exactly the stored hashes in height order. -/
theorem hashRange_ok (storage : Storage) (n : Nat) : ∀ (lo : Nat),
    (∀ i, i < n → (storage.getBlockHash (lo + i)).isOk = true) →
    ∃ L : List Hash, hashRange storage lo n = Except.ok L ∧ L.length = n ∧
      ∀ i, (hi : i < L.length) → storage.getBlockHash (lo + i) = Except.ok (L.get ⟨i, hi⟩) := by
  induction n with
  | zero =>
    intro lo _
    exact ⟨[], rfl, rfl, fun i hi => absurd hi (by simp)⟩
  | succ n ih =>
    intro lo hok
    obtain ⟨v, hv⟩ : ∃ v, storage.getBlockHash lo = Except.ok v := by
      have h0 := hok 0 (Nat.succ_pos n)
      rw [Nat.add_zero] at h0
      cases he : storage.getBlockHash lo with
      | ok v => exact ⟨v, rfl⟩
      | error e => rw [he] at h0; simp [Except.isOk, Except.toBool] at h0
    obtain ⟨L, hL, hlen, hget⟩ := ih (lo + 1) (fun i hi => by
      have := hok (i + 1) (Nat.succ_lt_succ hi)
      rwa [show lo + (i + 1) = lo + 1 + i by omega] at this)
    refine ⟨v :: L, ?_, by simp [hlen], ?_⟩
    · simp [hashRange, hv, hL, except_bind_ok]
    · intro i hi
      match i with
      | 0 => simpa using hv
      | i + 1 =>
        have := hget i (by simpa using hi)
        rw [show lo + (i + 1) = lo + 1 + i by omega]
        simpa using this

/-- C1: for a `GetSync` request whose latest shared hash resolves,
`receive_get_sync` writes exactly one `Sync` reply: when the shared height `h`
is strictly below the current height `H` (and the block hashes at heights
`h+1 .. min H (h+4000)` are present in storage) the reply carries exactly the
hashes of those heights in increasing height order, hence at most 4000 of
them; otherwise (height of the shared hash undefined, or not below `H`) the
reply is a `Sync` with an empty hash list. -/
theorem receive_get_sync_correct (storage : Storage) (locator : List Hash) (lsh : Hash)
    (hshared : storage.getLatestSharedHash locator = Except.ok lsh) :
    (∀ h, storage.getBlockNumber lsh = Except.ok h →
      h < storage.getLatestBlockHeight →
      (∀ i, i < min storage.getLatestBlockHeight (h + 4000) - h →
        (storage.getBlockHash (h + 1 + i)).isOk = true) →
      ∃ L, receive_get_sync storage locator = Except.ok [OutMsg.sync L] ∧
        L.length = min storage.getLatestBlockHeight (h + 4000) - h ∧
        L.length ≤ 4000 ∧
        ∀ i, (hi : i < L.length) →
          storage.getBlockHash (h + 1 + i) = Except.ok (L.get ⟨i, hi⟩)) ∧
    (∀ h, storage.getBlockNumber lsh = Except.ok h →
      ¬ h < storage.getLatestBlockHeight →
      receive_get_sync storage locator = Except.ok [OutMsg.sync []]) ∧
    (∀ e, storage.getBlockNumber lsh = Except.error e →
      receive_get_sync storage locator = Except.ok [OutMsg.sync []]) := by
  have hmax : ∀ h : Nat,
      (if h + 4000 < storage.getLatestBlockHeight then h + 4000 else storage.getLatestBlockHeight)
        = min storage.getLatestBlockHeight (h + 4000) := by
    intro h
    rcases lt_or_ge (h + 4000) storage.getLatestBlockHeight with hlt | hge
    · rw [if_pos hlt, min_eq_right (le_of_lt hlt)]
    · rw [if_neg (not_lt.mpr hge), min_eq_left hge]
  refine ⟨?_, ?_, ?_⟩
  · intro h hbn hlt hok
    obtain ⟨L, hL, hlen, hget⟩ :=
      hashRange_ok storage (min storage.getLatestBlockHeight (h + 4000) - h) (h + 1) hok
    refine ⟨L, ?_, hlen, by omega, fun i hi => hget i hi⟩
    simp only [receive_get_sync, except_bind_ok, except_pure_eq, hshared, hbn, if_pos hlt,
      hmax h, hL]
  · intro h hbn hnlt
    simp only [receive_get_sync, except_bind_ok, except_pure_eq, hshared, hbn, if_neg hnlt]
  · intro e hbn
    simp only [receive_get_sync, except_bind_ok, except_pure_eq, hshared, hbn]

/-- Witness for C1 on `c1Storage`: shared height 1, chain height 3, so the
reply carries the hashes of heights 2 and 3. -/
theorem receive_get_sync_correct_witness :
    ∃ L, receive_get_sync c1Storage [100] = Except.ok [OutMsg.sync L] ∧
      L.length = min c1Storage.getLatestBlockHeight (1 + 4000) - 1 ∧
      L.length ≤ 4000 ∧
      ∀ i, (hi : i < L.length) →
        c1Storage.getBlockHash (1 + 1 + i) = Except.ok (L.get ⟨i, hi⟩) :=
  (receive_get_sync_correct c1Storage [100] 100 rfl).1 1 rfl (by decide) (fun i _ => rfl)

/-- C2: for a `Block` or `SyncBlock` message whose deserialized block's header
hash already exists in storage, the handler leaves the node state untouched
and produces no effect at all (no consensus call, no memory-pool or
sync-handler access, no propagation, no request): dispatching it only hands
the unchanged channel back through the acknowledgement. -/
theorem receive_block_message_known_hash_frame (storage : Storage)
    (deserializeBlock : BlockData → Except Unit BlockStruct) (inserted : Bool)
    (storageAfter : Storage) (max_peers : Nat) (handshakeRes : Except Unit Unit)
    (tryLockOk : Bool) (now : Time)
    (st : NodeState) (data : BlockData) (channel : Channel) (propagate : Bool)
    (block : BlockStruct)
    (hdes : deserializeBlock data = Except.ok block)
    (hex : storage.blockHashExists block.headerHash = true) :
    receive_block_message storage deserializeBlock inserted storageAfter st data channel propagate
        = Except.ok (st, []) ∧
    handler_step storage deserializeBlock inserted storageAfter max_peers handshakeRes tryLockOk now
        st (InMsg.block data) channel = Except.ok (st, [], channel) ∧
    handler_step storage deserializeBlock inserted storageAfter max_peers handshakeRes tryLockOk now
        st (InMsg.syncBlock data) channel = Except.ok (st, [], channel) := by
  have hmain : ∀ p : Bool,
      receive_block_message storage deserializeBlock inserted storageAfter st data channel p
        = Except.ok (st, []) := by
    intro p
    simp [receive_block_message, except_bind_ok, except_pure_eq, hdes, hex]
  refine ⟨hmain propagate, ?_, ?_⟩ <;>
    simp [handler_step, hmain, Except.map]

/-- Witness for C2 at a concrete input: the state and effect trace are
untouched and the dispatched acknowledgement returns the original channel. -/
theorem receive_block_message_known_hash_frame_witness :
    receive_block_message storageAllPresent desOk false storageAllPresent st0 5 ⟨addrB⟩ true
        = Except.ok (st0, []) ∧
    handler_step storageAllPresent desOk false storageAllPresent 10 (Except.ok ()) true 0
        st0 (InMsg.block 5) ⟨addrB⟩ = Except.ok (st0, [], ⟨addrB⟩) ∧
    handler_step storageAllPresent desOk false storageAllPresent 10 (Except.ok ()) true 0
        st0 (InMsg.syncBlock 5) ⟨addrB⟩ = Except.ok (st0, [], ⟨addrB⟩) :=
  receive_block_message_known_hash_frame storageAllPresent desOk false storageAllPresent
    10 (Except.ok ()) true 0 st0 5 ⟨addrB⟩ true ⟨5⟩ rfl rfl

/-- C3: for a `Block` message (`propagate = true`) whose block is not yet in
storage and whose consensus insertion succeeds, the effects are the consensus
call followed by the fan-out of the encoded block, and the fan-out writes the
block exactly to the connected peers other than the sender: the sender's own
address receives nothing. -/
theorem receive_block_message_propagates_except_sender (storage : Storage)
    (deserializeBlock : BlockData → Except Unit BlockStruct) (storageAfter : Storage)
    (st : NodeState) (data : BlockData) (channel : Channel) (block : BlockStruct)
    (hdes : deserializeBlock data = Except.ok block)
    (hex : storage.blockHashExists block.headerHash = false) :
    receive_block_message storage deserializeBlock true storageAfter st data channel true
        = Except.ok ({ st with sync := st.sync.clear_pending storageAfter },
            Effect.consensusReceiveBlock data :: propagate_block st.connections data channel.address) ∧
    (∀ a : Addr, Effect.write a (OutMsg.block data) ∈ propagate_block st.connections data channel.address
        ↔ a ∈ st.connections ∧ a ≠ channel.address) ∧
    (∀ m : OutMsg, Effect.write channel.address m ∉ propagate_block st.connections data channel.address) := by
  refine ⟨?_, ?_, ?_⟩
  · simp [receive_block_message, except_bind_ok, except_pure_eq, hdes, hex]
  · intro a
    simp [propagate_block, List.mem_filter, List.mem_map]
  · intro m
    simp only [propagate_block, List.mem_map, List.mem_filter, not_exists]
    intro x hx
    obtain ⟨⟨_, hne⟩, heq⟩ := hx
    injection heq with h1 _
    subst h1
    simp at hne

/-- Witness for C3 at a concrete input: the sender `addrB` is excluded, the
other connected peer `addrC` receives the block. -/
theorem receive_block_message_propagates_except_sender_witness :
    receive_block_message storageNonePresent desOk true storageNonePresent st0 5 ⟨addrB⟩ true
        = Except.ok ({ st0 with sync := st0.sync.clear_pending storageNonePresent },
            Effect.consensusReceiveBlock 5 :: propagate_block st0.connections 5 addrB) ∧
    (∀ a : Addr, Effect.write a (OutMsg.block 5) ∈ propagate_block st0.connections 5 addrB
        ↔ a ∈ st0.connections ∧ a ≠ addrB) ∧
    (∀ m : OutMsg, Effect.write addrB m ∉ propagate_block st0.connections 5 addrB) :=
  receive_block_message_propagates_except_sender storageNonePresent desOk storageNonePresent
    st0 5 ⟨addrB⟩ ⟨5⟩ rfl rfl

/-- Case analysis of `receive_version`: it either propagates the handshake
registry error, or returns the original channel together with either an
adoption of the sender as sync node (possible only when the advertised height
exceeds ours, the try-lock succeeded and the handler was not syncing) or an
unchanged sync handler and no `GetSync` write. -/
theorem receive_version_shape (st : NodeState) (max_peers : Nat) (storage : Storage)
    (handshakeRes : Except Unit Unit) (tryLockOk : Bool) (message : Version) (channel : Channel) :
    receive_version st max_peers storage handshakeRes tryLockOk message channel = Except.error () ∨
    ∃ sync1 effs,
      receive_version st max_peers storage handshakeRes tryLockOk message channel
          = Except.ok (sync1, effs, channel) ∧
      ((message.height > storage.getLatestBlockHeight ∧ tryLockOk = true ∧
          st.sync.is_syncing = false ∧
          sync1 = { st.sync with sync_node := ⟨channel.address.ip, message.address_sender.port⟩ }) ∨
        (sync1 = st.sync ∧ ∀ a l, Effect.write a (OutMsg.getSync l) ∉ effs)) := by
  by_cases hg : (st.peer_book.connected_total < max_peers ∨
        st.peer_book.connected_contains ⟨channel.address.ip, message.address_sender.port⟩ = true)
      ∧ st.localAddress ≠ ⟨channel.address.ip, message.address_sender.port⟩
  · rcases handshakeRes with e | u
    · cases e
      left
      simp [receive_version, hg]
    · by_cases hh : message.height > storage.getLatestBlockHeight
      · by_cases hl : tryLockOk = true
        · by_cases hs : st.sync.is_syncing = true
          · refine Or.inr ⟨st.sync,
              [Effect.handshakeRequest ⟨channel.address.ip, message.address_sender.port⟩],
              ?_, Or.inr ⟨rfl, by simp⟩⟩
            simp [receive_version, hg, hh, hl, hs]
          · have hs' : st.sync.is_syncing = false := by
              cases hb : st.sync.is_syncing
              · rfl
              · exact absurd hb hs
            cases hloc : storage.getBlockLocatorHashes with
            | ok locator =>
              refine Or.inr
                ⟨{ st.sync with sync_node := ⟨channel.address.ip, message.address_sender.port⟩ },
                  [Effect.handshakeRequest ⟨channel.address.ip, message.address_sender.port⟩,
                    Effect.write channel.address (OutMsg.getSync locator)],
                  ?_, Or.inl ⟨hh, hl, hs', rfl⟩⟩
              simp [receive_version, hg, hh, hl, hs', hloc]
            | error e =>
              refine Or.inr
                ⟨{ st.sync with sync_node := ⟨channel.address.ip, message.address_sender.port⟩ },
                  [Effect.handshakeRequest ⟨channel.address.ip, message.address_sender.port⟩],
                  ?_, Or.inl ⟨hh, hl, hs', rfl⟩⟩
              simp [receive_version, hg, hh, hl, hs', hloc]
        · have hl' : tryLockOk = false := by
            cases hb : tryLockOk
            · rfl
            · exact absurd hb hl
          refine Or.inr ⟨st.sync,
            [Effect.handshakeRequest ⟨channel.address.ip, message.address_sender.port⟩],
            ?_, Or.inr ⟨rfl, by simp⟩⟩
          simp [receive_version, hg, hh, hl']
      · refine Or.inr ⟨st.sync,
          [Effect.handshakeRequest ⟨channel.address.ip, message.address_sender.port⟩],
          ?_, Or.inr ⟨rfl, by simp⟩⟩
        simp [receive_version, hg, hh]
  · refine Or.inr ⟨st.sync, [], ?_, Or.inr ⟨rfl, by simp⟩⟩
    simp [receive_version, hg]

/-- Adoption conditions on the acceptor path: if an iteration of the accept
loop changed the sync node or sent a `GetSync`, then the handshake succeeded
with a `Version` message advertising a height above ours, the sync handler
try-lock succeeded, and the handler was not syncing. -/
theorem listen_accept_adoption_conditions (max_peers : Nat) (storage : Storage) (st : NodeState)
    (peerAddress : Addr) (handshakeRes : Except Unit HandshakeOutcome) (tryLockOk : Bool)
    (st2 : NodeState) (effs : List Effect)
    (heq : listen_accept max_peers storage st peerAddress handshakeRes tryLockOk = (st2, effs))
    (hadopt : st2.sync.sync_node ≠ st.sync.sync_node ∨
      ∃ a l, Effect.write a (OutMsg.getSync l) ∈ effs) :
    ∃ h v, handshakeRes = Except.ok h ∧ h.versionMessage = some v ∧
      v.height > storage.getLatestBlockHeight ∧ st.sync.is_syncing = false ∧
      tryLockOk = true := by
  have refute : ∀ (stx : NodeState) (effx : List Effect),
      (stx, effx) = (st2, effs) → stx.sync.sync_node = st.sync.sync_node →
      (∀ a l, Effect.write a (OutMsg.getSync l) ∉ effx) → False := by
    intro stx effx hpq hnode hno
    have h1 : stx = st2 := congrArg Prod.fst hpq
    have h2 : effx = effs := congrArg Prod.snd hpq
    subst h1
    subst h2
    rcases hadopt with hx | ⟨a, l, hw⟩
    · exact hx hnode
    · exact hno a l hw
  by_cases hcap : st.peer_book.connected_total ≥ max_peers
  · simp only [listen_accept, if_pos hcap] at heq
    exact (refute _ _ heq rfl (by simp)).elim
  · rcases handshakeRes with e | h
    · simp only [listen_accept, if_neg hcap] at heq
      exact (refute _ _ heq rfl (by simp)).elim
    · by_cases hd : st.localAddress ≠ h.receiverAddress
      · cases hv : h.versionMessage with
        | none =>
          simp only [listen_accept, if_neg hcap, if_pos hd, hv] at heq
          exact (refute _ _ heq rfl (by simp)).elim
        | some v =>
          by_cases hh : v.height > storage.getLatestBlockHeight
          · by_cases hl : tryLockOk = true
            · by_cases hsy : st.sync.is_syncing = true
              · simp only [listen_accept, if_neg hcap, if_pos hd, hv, if_pos hh, hl, if_true,
                  hsy, Bool.not_true, Bool.false_eq_true, if_false] at heq
                exact (refute _ _ heq rfl (by simp)).elim
              · have hs' : st.sync.is_syncing = false := by
                  cases hb : st.sync.is_syncing
                  · rfl
                  · exact absurd hb hsy
                exact ⟨h, v, rfl, hv, hh, hs', hl⟩
            · have hl' : tryLockOk = false := by
                cases hb : tryLockOk
                · rfl
                · exact absurd hb hl
              simp only [listen_accept, if_neg hcap, if_pos hd, hv, if_pos hh, hl',
                Bool.false_eq_true, if_false] at heq
              exact (refute _ _ heq rfl (by simp)).elim
          · simp only [listen_accept, if_neg hcap, if_pos hd, hv, if_neg hh] at heq
            exact (refute _ _ heq rfl (by simp)).elim
      · cases hv : h.versionMessage with
        | none =>
          simp only [listen_accept, if_neg hcap, if_neg hd, hv] at heq
          exact (refute _ _ heq rfl (by simp)).elim
        | some v =>
          by_cases hh : v.height > storage.getLatestBlockHeight
          · by_cases hl : tryLockOk = true
            · by_cases hsy : st.sync.is_syncing = true
              · simp only [listen_accept, if_neg hcap, if_neg hd, hv, if_pos hh, hl, if_true,
                  hsy, Bool.not_true, Bool.false_eq_true, if_false] at heq
                exact (refute _ _ heq rfl (by simp)).elim
              · have hs' : st.sync.is_syncing = false := by
                  cases hb : st.sync.is_syncing
                  · rfl
                  · exact absurd hb hsy
                exact ⟨h, v, rfl, hv, hh, hs', hl⟩
            · have hl' : tryLockOk = false := by
                cases hb : tryLockOk
                · rfl
                · exact absurd hb hl
              simp only [listen_accept, if_neg hcap, if_neg hd, hv, if_pos hh, hl',
                Bool.false_eq_true, if_false] at heq
              exact (refute _ _ heq rfl (by simp)).elim
          · simp only [listen_accept, if_neg hcap, if_neg hd, hv, if_neg hh] at heq
            exact (refute _ _ heq rfl (by simp)).elim

/-- C4: a new sync node is adopted (sync node overwritten or a `GetSync`
issued) on a `Version` message or on a completed inbound handshake only when
the peer's advertised height strictly exceeds our latest block height, the
sync handler is not syncing, and the sync handler try-lock was acquired; a
failed try-lock skips adoption entirely. -/
theorem sync_node_adoption_only_when :
    (∀ (st : NodeState) (max_peers : Nat) (storage : Storage) (handshakeRes : Except Unit Unit)
        (tryLockOk : Bool) (message : Version) (channel : Channel)
        (sync1 : SyncHandler) (effs : List Effect) (ch : Channel),
      receive_version st max_peers storage handshakeRes tryLockOk message channel
          = Except.ok (sync1, effs, ch) →
      (sync1.sync_node ≠ st.sync.sync_node ∨
        ∃ a l, Effect.write a (OutMsg.getSync l) ∈ effs) →
      message.height > storage.getLatestBlockHeight ∧ st.sync.is_syncing = false ∧
        tryLockOk = true) ∧
    (∀ (max_peers : Nat) (storage : Storage) (st : NodeState) (peerAddress : Addr)
        (handshakeRes : Except Unit HandshakeOutcome) (tryLockOk : Bool)
        (st2 : NodeState) (effs : List Effect),
      listen_accept max_peers storage st peerAddress handshakeRes tryLockOk = (st2, effs) →
      (st2.sync.sync_node ≠ st.sync.sync_node ∨
        ∃ a l, Effect.write a (OutMsg.getSync l) ∈ effs) →
      ∃ h v, handshakeRes = Except.ok h ∧ h.versionMessage = some v ∧
        v.height > storage.getLatestBlockHeight ∧ st.sync.is_syncing = false ∧
        tryLockOk = true) := by
  constructor
  · intro st max_peers storage handshakeRes tryLockOk message channel sync1 effs ch hres hadopt
    rcases receive_version_shape st max_peers storage handshakeRes tryLockOk message channel with
      herr | ⟨s1, e1, hrveq, hcase⟩
    · rw [herr] at hres
      exact absurd hres (by simp)
    · have hpair : (s1, e1, channel) = (sync1, effs, ch) :=
        Except.ok.inj (hrveq.symm.trans hres)
      have h1 : s1 = sync1 := congrArg Prod.fst hpair
      have h2 : e1 = effs := congrArg (fun p => p.2.1) hpair
      subst h1
      subst h2
      rcases hcase with ⟨hh, hl, hsf, _⟩ | ⟨hsync, hno⟩
      · exact ⟨hh, hsf, hl⟩
      · rcases hadopt with hnode | ⟨a, l, hw⟩
        · rw [hsync] at hnode
          exact absurd rfl hnode
        · exact absurd hw (hno a l)
  · intro max_peers storage st peerAddress handshakeRes tryLockOk st2 effs heq hadopt
    exact listen_accept_adoption_conditions max_peers storage st peerAddress handshakeRes
      tryLockOk st2 effs heq hadopt

/-- Witness for C4: a concrete `Version` receipt that adopts the sender as
sync node implies the three conditions. -/
theorem sync_node_adoption_only_when_witness :
    vMsg.height > storageNonePresent.getLatestBlockHeight ∧
      st0.sync.is_syncing = false ∧ true = true :=
  sync_node_adoption_only_when.1 st0 10 storageNonePresent (Except.ok ()) true vMsg ch1000
    { st0.sync with sync_node := ⟨2, 2000⟩ } [Effect.handshakeRequest ⟨2, 2000⟩] ch1000
    rfl (Or.inl (by decide))

/-- Counterexample to C5 as stated: for a `Version` advertising sender port
2000 received on a channel whose remote address has port 1000,
`receive_version` returns the original channel handle, whose address is NOT
`(sender_ip, message.address_sender.port)`. -/
theorem receive_version_address_not_updated :
    receive_version st0 10 storageNonePresent (Except.ok ()) true
        ⟨1, 0, 0, 0, addrA, ⟨2, 2000⟩⟩ ch1000
      = Except.ok (st0.sync, [Effect.handshakeRequest ⟨2, 2000⟩], ch1000) ∧
    ch1000.address ≠ (⟨2, 2000⟩ : Addr) :=
  ⟨rfl, by decide⟩

/-- Helper for C5: `receive_version` always hands back exactly the channel it
was given. -/
theorem receive_version_channel_eq (st : NodeState) (max_peers : Nat) (storage : Storage)
    (handshakeRes : Except Unit Unit) (tryLockOk : Bool) (message : Version) (channel : Channel)
    (r : SyncHandler × List Effect × Channel)
    (hres : receive_version st max_peers storage handshakeRes tryLockOk message channel
      = Except.ok r) : r.2.2 = channel := by
  rcases receive_version_shape st max_peers storage handshakeRes tryLockOk message channel with
    herr | ⟨s1, e1, hrveq, _⟩
  · rw [herr] at hres
    exact absurd hres (by simp)
  · have hpair : (s1, e1, channel) = r := Except.ok.inj (hrveq.symm.trans hres)
    exact (congrArg (fun p => p.2.2) hpair).symm

/-- C5 (amended): `receive_version` returns the channel handle unchanged (its
address stays the original remote address), and the central handler's
acknowledgement for a `version` message carries exactly the channel returned
by `receive_version` — hence the original channel. -/
theorem receive_version_returns_original_channel :
    (∀ (st : NodeState) (max_peers : Nat) (storage : Storage) (handshakeRes : Except Unit Unit)
        (tryLockOk : Bool) (message : Version) (channel : Channel)
        (r : SyncHandler × List Effect × Channel),
      receive_version st max_peers storage handshakeRes tryLockOk message channel
          = Except.ok r → r.2.2 = channel) ∧
    (∀ (storage : Storage) (deserializeBlock : BlockData → Except Unit BlockStruct)
        (inserted : Bool) (storageAfter : Storage) (max_peers : Nat)
        (handshakeRes : Except Unit Unit) (tryLockOk : Bool) (now : Time)
        (st : NodeState) (message : Version) (channel : Channel)
        (st2 : NodeState) (effs : List Effect) (ach : Channel),
      handler_step storage deserializeBlock inserted storageAfter max_peers handshakeRes tryLockOk
          now st (InMsg.version message) channel = Except.ok (st2, effs, ach) →
      (∃ sync1, receive_version st max_peers storage handshakeRes tryLockOk message channel
          = Except.ok (sync1, effs, ach)) ∧ ach = channel) := by
  constructor
  · exact receive_version_channel_eq
  · intro storage deserializeBlock inserted storageAfter max_peers handshakeRes tryLockOk now
      st message channel st2 effs ach hstep
    cases hrv : receive_version st max_peers storage handshakeRes tryLockOk message channel with
    | error e =>
      simp only [handler_step, hrv, Except.map] at hstep
      exact absurd hstep (by simp)
    | ok r =>
      obtain ⟨s, e2, c⟩ := r
      simp only [handler_step, hrv, Except.map] at hstep
      have hpair := Except.ok.inj hstep
      have he : e2 = effs := congrArg (fun p => p.2.1) hpair
      have hc : c = ach := congrArg (fun p => p.2.2) hpair
      have hch : c = channel :=
        receive_version_channel_eq st max_peers storage handshakeRes tryLockOk message channel
          (s, e2, c) hrv
      subst he
      subst hc
      exact ⟨⟨s, rfl⟩, hch⟩

/-- Witness for C5 at a concrete input: the acknowledged channel for a
`version` dispatch is the original channel. -/
theorem receive_version_returns_original_channel_witness :
    (∃ sync1, receive_version st0 10 storageNonePresent (Except.ok ()) true vMsg ch1000
        = Except.ok (sync1, [Effect.handshakeRequest ⟨2, 2000⟩], ch1000)) ∧ ch1000 = ch1000 :=
  receive_version_returns_original_channel.2 storageNonePresent desOk true storageNonePresent
    10 (Except.ok ()) true 0 st0 vMsg ch1000
    { st0 with sync := { st0.sync with sync_node := ⟨2, 2000⟩ } }
    [Effect.handshakeRequest ⟨2, 2000⟩] ch1000 rfl

/-- C6: when an inbound TCP connection is accepted while the connected total
has reached `max_peers`, the acceptor half-shuts the stream and drops it: no
handshake is run, no channel is stored, and the node state (peer book,
connections, everything) is unchanged. -/
theorem listen_accept_at_capacity (max_peers : Nat) (storage : Storage) (st : NodeState)
    (peerAddress : Addr) (handshakeRes : Except Unit HandshakeOutcome) (tryLockOk : Bool)
    (hcap : st.peer_book.connected_total ≥ max_peers) :
    listen_accept max_peers storage st peerAddress handshakeRes tryLockOk
      = (st, [Effect.shutdownWrite]) := by
  simp [listen_accept, hcap]

/-- Witness for C6: with `max_peers = 0` every inbound stream is rejected with
only a half-shutdown and an untouched state. -/
theorem listen_accept_at_capacity_witness :
    listen_accept 0 storageNonePresent st0 addrB (Except.ok hOutB) true
      = (st0, [Effect.shutdownWrite]) :=
  listen_accept_at_capacity 0 storageNonePresent st0 addrB (Except.ok hOutB) true (by decide)

/-- Counterexample to C9 as stated: `local_address` is overwritten by EVERY
successful inbound handshake whose `receiver_address` differs from the current
value, not at most once: starting from local address `addrA`, one handshake
rewrites it to `(7, 70)` and a second handshake rewrites it again to
`(8, 80)`. -/
theorem local_address_updated_twice :
    (listen_accept 10 storageNonePresent st0 addrB (Except.ok hOutB) true).1.localAddress
        = ⟨7, 70⟩ ∧
    (listen_accept 10 storageNonePresent
        (listen_accept 10 storageNonePresent st0 addrB (Except.ok hOutB) true).1
        addrC (Except.ok hOutC) true).1.localAddress = ⟨8, 80⟩ ∧
    (⟨7, 70⟩ : Addr) ≠ st0.localAddress ∧ (⟨8, 80⟩ : Addr) ≠ ⟨7, 70⟩ := by
  decide

/-- C9 (amended): every successful inbound handshake below the peer cap whose
returned `receiver_address` differs from the current `local_address`
overwrites the cell with it and forgets that address's peer-book entry; when
it is equal, both the cell and the peer book are left alone.  (The update is
not limited to a single occurrence over the server lifetime.) -/
theorem listen_accept_local_address_discovery (max_peers : Nat) (storage : Storage)
    (st : NodeState) (peerAddress : Addr) (h : HandshakeOutcome) (tryLockOk : Bool)
    (hcap : st.peer_book.connected_total < max_peers) :
    (st.localAddress ≠ h.receiverAddress →
      (listen_accept max_peers storage st peerAddress (Except.ok h) tryLockOk).1.localAddress
          = h.receiverAddress ∧
      (listen_accept max_peers storage st peerAddress (Except.ok h) tryLockOk).1.peer_book
          = st.peer_book.forget_peer h.receiverAddress) ∧
    (st.localAddress = h.receiverAddress →
      (listen_accept max_peers storage st peerAddress (Except.ok h) tryLockOk).1.localAddress
          = st.localAddress ∧
      (listen_accept max_peers storage st peerAddress (Except.ok h) tryLockOk).1.peer_book
          = st.peer_book) := by
  have hncap : ¬ st.peer_book.connected_total ≥ max_peers := by omega
  constructor
  · intro hd
    constructor <;> simp [listen_accept, hncap, hd]
  · intro hd
    have hd' : ¬ st.localAddress ≠ h.receiverAddress := by simp [hd]
    constructor <;> simp [listen_accept, hncap, hd']

/-- Witness for C9's amended statement at a concrete input: the first
differing handshake installs `(7, 70)` and forgets it from the peer book. -/
theorem listen_accept_local_address_discovery_witness :
    (listen_accept 10 storageNonePresent st0 addrB (Except.ok hOutB) true).1.localAddress
        = hOutB.receiverAddress ∧
    (listen_accept 10 storageNonePresent st0 addrB (Except.ok hOutB) true).1.peer_book
        = st0.peer_book.forget_peer hOutB.receiverAddress :=
  (listen_accept_local_address_discovery 10 storageNonePresent st0 addrB hOutB true
    (by decide)).1 (by decide)

/-- Looking up the freshly inserted key returns the new timestamp. -/
theorem pmLookup_insert_self (m : PeerMap) (a : Addr) (t : Time) :
    pmLookup (pmInsert m a t) a = some t := by
  simp [pmLookup, pmInsert]

/-- Erasing a key removes every binding for it. -/
theorem pmLookup_erase_self (m : PeerMap) (a : Addr) :
    pmLookup (pmErase m a) a = none := by
  induction m with
  | nil => rfl
  | cons p m ih =>
    by_cases hpa : p.1 = a <;> simp [pmErase, pmLookup, hpa, ih]

/-- Erasing one key leaves lookups at other keys unchanged. -/
theorem pmLookup_erase_ne (m : PeerMap) (a b : Addr) (h : b ≠ a) :
    pmLookup (pmErase m a) b = pmLookup m b := by
  induction m with
  | nil => rfl
  | cons p m ih =>
    have hab : ¬ a = b := fun hc => h hc.symm
    by_cases hpa : p.1 = a
    · have hpb : ¬ p.1 = b := fun hc => h (by rw [← hc, hpa])
      simp [pmErase, pmLookup, hpa, hpb, ih, hab, h]
    · by_cases hpb : p.1 = b <;> simp [pmErase, pmLookup, hpa, hpb, ih, hab, h]

/-- Inserting one key leaves lookups at other keys unchanged. -/
theorem pmLookup_insert_ne (m : PeerMap) (a : Addr) (t : Time) (b : Addr) (h : b ≠ a) :
    pmLookup (pmInsert m a t) b = pmLookup m b := by
  have hba : ¬ a = b := fun hc => h hc.symm
  calc pmLookup (pmInsert m a t) b
      = pmLookup (pmErase m a) b := by simp [pmLookup, pmInsert, hba]
    _ = pmLookup m b := pmLookup_erase_ne m a b h

/-- The first failure of an iteration increments the count (no `u8` wrap below
255) and recomputes the disconnect flag. -/
theorem handle_failure_first (fc : Nat) (d : Bool) (h : fc < 255) :
    handle_failure ⟨false, fc, d⟩ = ⟨true, fc + 1, should_disconnect (fc + 1)⟩ := by
  simp [handle_failure, Nat.mod_eq_of_lt (show fc + 1 < 256 by omega)]

/-- A repeated failure within the same iteration changes nothing. -/
theorem handle_failure_again (fc : Nat) (d : Bool) :
    handle_failure ⟨true, fc, d⟩ = ⟨true, fc, d⟩ := by
  simp [handle_failure]

/-- C7: per outer reader iteration, `failure_count` increases by at most one
(later failures in the same iteration do not re-increment); starting from a
non-disconnecting state the disconnect flag comes out true exactly when the
iteration failed and pushed the count to 10 or beyond; a read error that sets
the flag forwards the synthetic `disconnect` message and breaks the loop; and
the central handler's `disconnect` dispatch moves the peer's address from the
connected set to the disconnected set. -/
theorem reader_failure_policy :
    (∀ (s : ReaderLoopState) (inp : IterInput), s.failure_count < 255 →
      (reader_iteration s inp).1.state.failure_count = s.failure_count ∨
        (reader_iteration s inp).1.state.failure_count = s.failure_count + 1) ∧
    (∀ (s : ReaderLoopState) (inp : IterInput), s.failure_count < 255 →
      s.disconnect_from_peer = false →
      ((reader_iteration s inp).1.state.disconnect_from_peer = true ↔
        (reader_iteration s inp).1.state.failure_count = s.failure_count + 1 ∧
          s.failure_count + 1 ≥ 10)) ∧
    (∀ (s : ReaderLoopState) (inp : IterInput), s.failure_count < 255 →
      s.disconnect_from_peer = false → inp.readRes = none → inp.sendOk = true →
      s.failure_count + 1 ≥ 10 →
      (reader_iteration s inp).2 = [InMsg.disconnect] ∧
        ∃ sx, (reader_iteration s inp).1 = IterResult.broke sx) ∧
    (∀ (storage : Storage) (deserializeBlock : BlockData → Except Unit BlockStruct)
        (inserted : Bool) (storageAfter : Storage) (max_peers : Nat)
        (handshakeRes : Except Unit Unit) (tryLockOk : Bool) (now : Time)
        (st : NodeState) (channel : Channel),
      handler_step storage deserializeBlock inserted storageAfter max_peers handshakeRes tryLockOk
          now st InMsg.disconnect channel
        = Except.ok ({ st with peer_book := st.peer_book.disconnect_peer channel.address },
            [], channel)) ∧
    (∀ (pb : PeerBook) (a : Addr) (t : Time), pmLookup pb.connected a = some t →
      pmLookup (pb.disconnect_peer a).connected a = none ∧
        pmLookup (pb.disconnect_peer a).disconnected a = some t) := by
  refine ⟨?_, ?_, ?_, ?_, ?_⟩
  · intro s inp hlt
    obtain ⟨rr, so, ar⟩ := inp
    obtain ⟨ch, fc, d⟩ := s
    simp only at hlt
    rcases rr with _ | m <;> rcases so <;> rcases ar with _ | c <;> rcases d <;>
      by_cases h10 : should_disconnect (fc + 1) = true <;>
        simp [reader_iteration, reader_forward, handle_failure_first fc false hlt,
          handle_failure_first fc true hlt, handle_failure_again, h10,
          handle_failure_first fc (should_disconnect (fc + 1)) hlt,
          IterResult.state]
  · intro s inp hlt hd
    obtain ⟨rr, so, ar⟩ := inp
    obtain ⟨ch, fc, d⟩ := s
    simp only at hd
    subst hd
    rcases rr with _ | m <;> rcases so <;> rcases ar with _ | c <;>
      by_cases h10 : fc + 1 ≥ 10 <;>
        simp [reader_iteration, reader_forward, handle_failure_first fc false hlt,
          handle_failure_again, IterResult.state, should_disconnect, h10,
          handle_failure_first fc (should_disconnect (fc + 1)) hlt]
  · intro s inp hlt hd hread hsend h10
    obtain ⟨rr, so, ar⟩ := inp
    obtain ⟨ch, fc, d⟩ := s
    simp only at hd hread hsend
    subst hd
    subst hread
    subst hsend
    have hsd : should_disconnect (fc + 1) = true := by
      simp [should_disconnect, h10]
    rcases ar with _ | c <;>
      simp [reader_iteration, reader_forward, handle_failure_first fc false hlt,
        handle_failure_again, IterResult.state, hsd]
  · intro storage deserializeBlock inserted storageAfter max_peers handshakeRes tryLockOk now
      st channel
    rfl
  · intro pb a t hconn
    unfold PeerBook.disconnect_peer
    rw [hconn]
    exact ⟨pmLookup_erase_self pb.connected a, pmLookup_insert_self pb.disconnected a t⟩

/-- Witness for C7: at failure count 9 and a read error, the count reaches 10,
the synthetic disconnect is forwarded, the loop breaks, and the handler moves
the (connected) peer `addrB` into the disconnected set. -/
theorem reader_failure_policy_witness :
    ((reader_iteration ⟨⟨addrB⟩, 9, false⟩ ⟨none, true, some ⟨addrB⟩⟩).1.state.disconnect_from_peer
        = true ↔
      (reader_iteration ⟨⟨addrB⟩, 9, false⟩ ⟨none, true, some ⟨addrB⟩⟩).1.state.failure_count
          = 9 + 1 ∧ 9 + 1 ≥ 10) ∧
    ((reader_iteration ⟨⟨addrB⟩, 9, false⟩ ⟨none, true, some ⟨addrB⟩⟩).2 = [InMsg.disconnect] ∧
      ∃ sx, (reader_iteration ⟨⟨addrB⟩, 9, false⟩ ⟨none, true, some ⟨addrB⟩⟩).1
          = IterResult.broke sx) ∧
    (pmLookup ((⟨[(addrB, 3)], [], []⟩ : PeerBook).disconnect_peer addrB).connected addrB = none ∧
      pmLookup ((⟨[(addrB, 3)], [], []⟩ : PeerBook).disconnect_peer addrB).disconnected addrB
        = some 3) :=
  ⟨reader_failure_policy.2.1 ⟨⟨addrB⟩, 9, false⟩ ⟨none, true, some ⟨addrB⟩⟩ (by decide) rfl,
    reader_failure_policy.2.2.1 ⟨⟨addrB⟩, 9, false⟩ ⟨none, true, some ⟨addrB⟩⟩ (by decide) rfl
      rfl rfl (by decide),
    reader_failure_policy.2.2.2.2 ⟨[(addrB, 3)], [], []⟩ addrB 3 (by decide)⟩

/-- `update_connected` touches the peer book only at its own key. -/
theorem bookAt_update_connected_ne (pb : PeerBook) (x : Addr) (t : Time) (b : Addr)
    (h : b ≠ x) : bookAt (pb.update_connected x t) b = bookAt pb b := by
  simp [bookAt, PeerBook.update_connected, pmLookup_insert_ne _ _ _ _ h,
    pmLookup_erase_ne _ _ _ h]

/-- `update_gossiped` touches the peer book only at its own key. -/
theorem bookAt_update_gossiped_ne (pb : PeerBook) (x : Addr) (t : Time) (b : Addr)
    (h : b ≠ x) : bookAt (pb.update_gossiped x t) b = bookAt pb b := by
  unfold PeerBook.update_gossiped
  split
  · rfl
  · simp [bookAt, pmLookup_insert_ne _ _ _ _ h, pmLookup_erase_ne _ _ _ h]

/-- One `receive_peers` merge step touches the peer book only at the learned key. -/
theorem bookAt_peersStep_ne (localAddress : Addr) (pb : PeerBook) (p : Addr × Time) (b : Addr)
    (h : b ≠ p.1) : bookAt (peersStep localAddress pb p) b = bookAt pb b := by
  unfold peersStep
  split
  · rfl
  · split
    · exact bookAt_update_connected_ne pb p.1 p.2 b h
    · exact bookAt_update_gossiped_ne pb p.1 p.2 b h

/-- The whole merge fold leaves keys outside the learned list untouched. -/
theorem bookAt_peersFold_ne (localAddress : Addr) (l : List (Addr × Time)) (pb : PeerBook)
    (b : Addr) (h : b ∉ l.map Prod.fst) :
    bookAt (l.foldl (peersStep localAddress) pb) b = bookAt pb b := by
  induction l generalizing pb with
  | nil => rfl
  | cons p l ih =>
    simp only [List.map_cons, List.mem_cons, not_or] at h
    rw [List.foldl_cons, ih _ h.2, bookAt_peersStep_ne localAddress pb p b h.1]

/-- A learned pair whose address is the local address is skipped. -/
theorem peersStep_local (localAddress : Addr) (pb : PeerBook) (p : Addr × Time)
    (h : p.1 = localAddress) : peersStep localAddress pb p = pb := by
  simp [peersStep, h]

/-- The merge fold never touches the local address's entries. -/
theorem bookAt_peersFold_local (localAddress : Addr) (l : List (Addr × Time)) (pb : PeerBook) :
    bookAt (l.foldl (peersStep localAddress) pb) localAddress = bookAt pb localAddress := by
  induction l generalizing pb with
  | nil => rfl
  | cons p l ih =>
    rw [List.foldl_cons]
    by_cases hp : p.1 = localAddress
    · rw [peersStep_local localAddress pb p hp, ih]
    · rw [ih, bookAt_peersStep_ne localAddress pb p localAddress (fun hc => hp hc.symm)]

/-- Characterization of the merge fold at a learned address (keys assumed
distinct): an already-connected address ends with its connected timestamp
refreshed; any other address ends in the gossiped set. -/
theorem bookAt_peersFold_mem (localAddress : Addr) (l : List (Addr × Time)) (pb : PeerBook)
    (a : Addr) (t : Time) (hmem : (a, t) ∈ l) (hnodup : (l.map Prod.fst).Nodup)
    (hla : a ≠ localAddress) :
    (pb.connected_contains a = true →
      bookAt (l.foldl (peersStep localAddress) pb) a = (some t, none, none)) ∧
    (pb.connected_contains a = false →
      bookAt (l.foldl (peersStep localAddress) pb) a = (none, some t, none)) := by
  induction l generalizing pb with
  | nil => cases hmem
  | cons p l ih =>
    simp only [List.map_cons, List.nodup_cons] at hnodup
    rcases List.mem_cons.mp hmem with heq | hmem'
    · obtain rfl : p = (a, t) := heq.symm
      have hnotin : a ∉ l.map Prod.fst := by simpa using hnodup.1
      rw [List.foldl_cons]
      constructor
      · intro hc
        have hstep : peersStep localAddress pb (a, t) = pb.update_connected a t := by
          simp [peersStep, hla, hc]
        rw [hstep, bookAt_peersFold_ne localAddress l _ a hnotin]
        simp [bookAt, PeerBook.update_connected, pmLookup_insert_self, pmLookup_erase_self]
      · intro hc
        have hstep : peersStep localAddress pb (a, t) = pb.update_gossiped a t := by
          simp [peersStep, hla, hc]
        have hnone : pmLookup pb.connected a = none := by
          cases ho : pmLookup pb.connected a with
          | none => rfl
          | some x =>
            unfold PeerBook.connected_contains at hc
            rw [ho] at hc
            simp at hc
        rw [hstep, bookAt_peersFold_ne localAddress l _ a hnotin]
        simp [bookAt, PeerBook.update_gossiped, PeerBook.connected_contains, hnone,
          pmLookup_insert_self, pmLookup_erase_self]
    · have hane : a ≠ p.1 := by
        intro hc
        exact hnodup.1 (hc ▸ (List.mem_map_of_mem Prod.fst hmem'))
      rw [List.foldl_cons]
      have hbook := bookAt_peersStep_ne localAddress pb p a hane
      have hcont : (peersStep localAddress pb p).connected_contains a
          = pb.connected_contains a := by
        have h1 : pmLookup (peersStep localAddress pb p).connected a
            = pmLookup pb.connected a := congrArg (fun q => q.1) hbook
        unfold PeerBook.connected_contains
        rw [h1]
      have hih := ih (peersStep localAddress pb p) hmem' hnodup.2
      exact ⟨fun hc => hih.1 (hcont.trans hc), fun hc => hih.2 (hcont.trans hc)⟩

/-- Counterexample to C8 as stated: a sender that was NOT connected is newly
added to the connected set by `receive_peers` (the final `update_connected`
inserts, it does not merely refresh). -/
theorem receive_peers_adds_unconnected_sender :
    pb0.connected_contains addrB = false ∧
    (receive_peers addrA pb0 [] addrB 5).connected_contains addrB = true := by
  decide

/-- C8 (amended): each learned address equal to the local address is skipped;
a learned address already in the connected set gets its connected timestamp
set to the learned timestamp (and stays out of the other sets); any other
learned address lands in the gossiped set; and the sender's address is
unconditionally bound in the connected set with the current time — refreshed
if it was connected, freshly added otherwise. -/
theorem receive_peers_correct (localAddress : Addr) (pb : PeerBook)
    (addresses : List (Addr × Time)) (senderAddress : Addr) (now : Time)
    (hnodup : (addresses.map Prod.fst).Nodup) :
    (∀ a t, (a, t) ∈ addresses → a ≠ localAddress → a ≠ senderAddress →
      (pb.connected_contains a = true →
        bookAt (receive_peers localAddress pb addresses senderAddress now) a
          = (some t, none, none)) ∧
      (pb.connected_contains a = false →
        bookAt (receive_peers localAddress pb addresses senderAddress now) a
          = (none, some t, none))) ∧
    (localAddress ≠ senderAddress →
      bookAt (receive_peers localAddress pb addresses senderAddress now) localAddress
        = bookAt pb localAddress) ∧
    pmLookup (receive_peers localAddress pb addresses senderAddress now).connected
        senderAddress = some now := by
  unfold receive_peers
  refine ⟨?_, ?_, ?_⟩
  · intro a t hmem hla hsend
    have hfold := bookAt_peersFold_mem localAddress addresses pb a t hmem hnodup hla
    have hupd := bookAt_update_connected_ne (addresses.foldl (peersStep localAddress) pb)
      senderAddress now a hsend
    exact ⟨fun hc => hupd.trans (hfold.1 hc), fun hc => hupd.trans (hfold.2 hc)⟩
  · intro hls
    have hupd := bookAt_update_connected_ne (addresses.foldl (peersStep localAddress) pb)
      senderAddress now localAddress hls
    exact hupd.trans (bookAt_peersFold_local localAddress addresses pb)
  · simp [PeerBook.update_connected, pmLookup_insert_self]

/-- Witness for C8's amended statement: with `addrB` already connected and
`addrC` unknown, the learned timestamps land as described and the sender
`addrD` is marked connected with the current time. -/
theorem receive_peers_correct_witness :
    bookAt (receive_peers addrA ⟨[(addrB, 1)], [], []⟩ [(addrB, 2), (addrC, 3)] addrD 9) addrB
        = (some 2, none, none) ∧
    bookAt (receive_peers addrA ⟨[(addrB, 1)], [], []⟩ [(addrB, 2), (addrC, 3)] addrD 9) addrC
        = (none, some 3, none) ∧
    pmLookup (receive_peers addrA ⟨[(addrB, 1)], [], []⟩
        [(addrB, 2), (addrC, 3)] addrD 9).connected addrD = some 9 :=
  have h := receive_peers_correct addrA ⟨[(addrB, 1)], [], []⟩ [(addrB, 2), (addrC, 3)]
    addrD 9 (by decide)
  ⟨(h.1 addrB 2 (by decide) (by decide) (by decide)).1 (by decide),
    (h.1 addrC 3 (by decide) (by decide) (by decide)).2 (by decide),
    h.2.2⟩

/-- `update_gossiped` never changes the connected set. -/
theorem update_gossiped_connected (pb : PeerBook) (a : Addr) (t : Time) :
    (pb.update_gossiped a t).connected = pb.connected := by
  unfold PeerBook.update_gossiped
  split <;> rfl

/-- `update_gossiped` leaves gossiped entries at other keys unchanged. -/
theorem update_gossiped_gossiped_ne (pb : PeerBook) (a : Addr) (t : Time) (b : Addr)
    (h : b ≠ a) :
    pmLookup (pb.update_gossiped a t).gossiped b = pmLookup pb.gossiped b := by
  unfold PeerBook.update_gossiped
  split
  · rfl
  · simp [pmLookup_insert_ne _ _ _ _ h]

/-- A fold of `update_gossiped`s leaves gossiped entries at keys outside the
list unchanged. -/
theorem gossipFold_ne (now : Time) (l : List Addr) : ∀ (pb : PeerBook) (b : Addr), b ∉ l →
    pmLookup (l.foldl (fun pbx a => pbx.update_gossiped a now) pb).gossiped b
      = pmLookup pb.gossiped b := by
  induction l with
  | nil => intro pb b _; rfl
  | cons a l ih =>
    intro pb b hb
    rw [List.mem_cons, not_or] at hb
    rw [List.foldl_cons, ih _ b hb.2, update_gossiped_gossiped_ne pb a now b hb.1]

/-- A fold of `update_gossiped`s binds every listed address (none of which is
connected) in the gossiped set with the given time. -/
theorem gossipFold_lookup (now : Time) (l : List Addr) : ∀ (pb : PeerBook),
    (∀ c ∈ l, pb.connected_contains c = false) → ∀ b ∈ l,
    pmLookup (l.foldl (fun pbx a => pbx.update_gossiped a now) pb).gossiped b = some now := by
  induction l with
  | nil => intro pb _ b hb; cases hb
  | cons a l ih =>
    intro pb hnc b hb
    rw [List.foldl_cons]
    have hnca : pb.connected_contains a = false := hnc a (List.mem_cons_self a l)
    have hpres : ∀ c ∈ l, (pb.update_gossiped a now).connected_contains c = false := by
      intro c hc
      unfold PeerBook.connected_contains
      rw [update_gossiped_connected]
      exact hnc c (List.mem_cons_of_mem a hc)
    rcases List.mem_cons.mp hb with rfl | hbl
    · by_cases hbl2 : b ∈ l
      · exact ih _ hpres b hbl2
      · rw [gossipFold_ne now l _ b hbl2]
        simp [PeerBook.update_gossiped, hnca, pmLookup_insert_self]
    · exact ih _ hpres b hbl

/-- A `bootStep` fold over indices starting at 1 or higher only gossips: it
adds no dial effect and updates the book with `update_gossiped` per address. -/
theorem bootFold_enumFrom (localAddress : Addr) (now : Time) (l : List Addr) :
    ∀ (k : Nat) (acc : PeerBook × List Effect),
    (List.enumFrom (k + 1) l).foldl (bootStep localAddress now) acc
      = (l.foldl (fun pbx a => pbx.update_gossiped a now) acc.1, acc.2) := by
  induction l with
  | nil => intro k acc; rfl
  | cons b rest ih =>
    intro k acc
    rw [List.enumFrom_cons, List.foldl_cons]
    have hstep : bootStep localAddress now acc (k + 1, b)
        = (acc.1.update_gossiped b now, acc.2) := by
      simp [bootStep]
    rw [hstep, ih (k + 1)]
    rfl

/-- C10: `connect_bootnodes` dials the first bootnode only (and only when its
address differs from the local address); every bootnode after the first is
merely bound in the gossiped set with the current time and is never dialed. -/
theorem connect_bootnodes_correct (localAddress : Addr) (pb : PeerBook) (now : Time) :
    connect_bootnodes localAddress pb [] now = (pb, []) ∧
    ∀ (b : Addr) (rest : List Addr),
      (connect_bootnodes localAddress pb (b :: rest) now).2
          = (if localAddress ≠ b then [Effect.dial b] else []) ∧
      (connect_bootnodes localAddress pb (b :: rest) now).1
          = rest.foldl (fun pbx a => pbx.update_gossiped a now) pb ∧
      ((∀ c ∈ rest, pb.connected_contains c = false) → ∀ c ∈ rest,
        pmLookup (connect_bootnodes localAddress pb (b :: rest) now).1.gossiped c
          = some now) := by
  constructor
  · rfl
  · intro b rest
    have hmain : connect_bootnodes localAddress pb (b :: rest) now
        = (rest.foldl (fun pbx a => pbx.update_gossiped a now) pb,
            if localAddress ≠ b then [Effect.dial b] else []) := by
      unfold connect_bootnodes
      rw [show List.enum (b :: rest) = (0, b) :: List.enumFrom 1 rest from rfl,
        List.foldl_cons]
      have hstep : bootStep localAddress now (pb, []) (0, b)
          = (pb, if localAddress ≠ b then [Effect.dial b] else []) := by
        by_cases hlb : localAddress ≠ b <;> simp [bootStep, hlb]
      rw [hstep]
      exact bootFold_enumFrom localAddress now rest 0 _
    refine ⟨by rw [hmain], by rw [hmain], ?_⟩
    intro hnc c hc
    rw [hmain]
    exact gossipFold_lookup now rest pb hnc c hc

/-- Witness for C10: of three bootnodes, only the first is dialed; the second
and third end in the gossiped set. -/
theorem connect_bootnodes_correct_witness :
    (connect_bootnodes addrA pb0 [addrB, addrC, addrD] 4).2 = [Effect.dial addrB] ∧
    pmLookup (connect_bootnodes addrA pb0 [addrB, addrC, addrD] 4).1.gossiped addrC
        = some 4 ∧
    pmLookup (connect_bootnodes addrA pb0 [addrB, addrC, addrD] 4).1.gossiped addrD
        = some 4 :=
  have h := (connect_bootnodes_correct addrA pb0 4).2 addrB [addrC, addrD]
  ⟨h.1.trans (by decide),
    h.2.2 (by decide) addrC (by decide),
    h.2.2 (by decide) addrD (by decide)⟩

end SnarkOS
